import Mathlib

/-!
# Verification of the nz-au-fares fare-discovery pipeline

Shallow embedding of the repository's five scripts:

* `nz_trans_tasman_price_watch.py` (namespace `NzTrans`)
* `grabaseat_daily.py`             (namespace `Grabaseat`)
* `anz_grabaseat_daily.py`         (namespace `AnzGrabaseat`)
* `scripts/anz_grabaseat_daily.py` (namespace `AnzDummy`)
* `nz_au_premium_daily.py`         (namespace `NzAuPremium`)

Calendar dates are modelled as (year, month, day) triples of naturals;
Python `float`/`Decimal` amounts are modelled as rationals, Python `int`
amounts as integers.  Provider network calls are modelled as explicit
function parameters; raising an exception inside a provider call is a
distinguished result constructor.
-/

set_option maxRecDepth 4000

/-- A calendar date, as Python's `datetime.date`: a (year, month, day) triple.
Comparison of `datetime.date` values is lexicographic on this triple. -/
structure Date where
  year : Nat
  month : Nat
  day : Nat
deriving DecidableEq, Repr

/-- Strict lexicographic order on dates (Python `date.__lt__`). -/
def Date.lt (a b : Date) : Bool :=
  a.year < b.year ||
    (a.year = b.year && (a.month < b.month ||
      (a.month = b.month && a.day < b.day)))

/-- Non-strict lexicographic order on dates (Python `date.__le__`). -/
def Date.le (a b : Date) : Bool :=
  a.year < b.year ||
    (a.year = b.year && (a.month < b.month ||
      (a.month = b.month && a.day ≤ b.day)))

theorem Date.le_refl (a : Date) : Date.le a a = true := by
  simp [Date.le]

theorem Date.le_trans {a b c : Date} (h₁ : Date.le a b = true)
    (h₂ : Date.le b c = true) : Date.le a c = true := by
  simp only [Date.le, Bool.or_eq_true, Bool.and_eq_true, decide_eq_true_eq] at *
  omega

theorem Date.le_total (a b : Date) : Date.le a b = true ∨ Date.le b a = true := by
  simp only [Date.le, Bool.or_eq_true, Bool.and_eq_true, decide_eq_true_eq]
  omega

theorem Date.le_antisymm {a b : Date} (h₁ : Date.le a b = true)
    (h₂ : Date.le b a = true) : a = b := by
  simp only [Date.le, Bool.or_eq_true, Bool.and_eq_true, decide_eq_true_eq] at *
  obtain ⟨y, m, d⟩ := a
  obtain ⟨y', m', d'⟩ := b
  simp_all only [Date.mk.injEq]
  omega

/-- Non-strict lexicographic order on (year, month) pairs.  This is the
order in which Python compares the `"%Y-%m"` month-key strings (string
comparison agrees with this pairwise order for four-digit years and
zero-padded months, which `strftime` guarantees). -/
def ymLe (a b : Nat × Nat) : Bool :=
  a.1 < b.1 || (a.1 = b.1 && a.2 ≤ b.2)

theorem ymLe_trans {a b c : Nat × Nat} (h₁ : ymLe a b = true)
    (h₂ : ymLe b c = true) : ymLe a c = true := by
  simp only [ymLe, Bool.or_eq_true, Bool.and_eq_true, decide_eq_true_eq] at *
  omega

theorem ymLe_total (a b : Nat × Nat) : ymLe a b = true ∨ ymLe b a = true := by
  simp only [ymLe, Bool.or_eq_true, Bool.and_eq_true, decide_eq_true_eq]
  omega

theorem ymLe_antisymm {a b : Nat × Nat} (h₁ : ymLe a b = true)
    (h₂ : ymLe b a = true) : a = b := by
  simp only [ymLe, Bool.or_eq_true, Bool.and_eq_true, decide_eq_true_eq] at *
  obtain ⟨x, y⟩ := a
  obtain ⟨x', y'⟩ := b
  simp_all only [Prod.mk.injEq]
  omega

/-! ## String helpers: Python's `needle in haystack` on lower-cased strings -/

/-- `listStartsWith n h`: the character list `n` is an initial segment of `h`. -/
def listStartsWith : List Char → List Char → Bool
  | [], _ => true
  | _ :: _, [] => false
  | a :: as, b :: bs => a = b && listStartsWith as bs

/-- `listContains n h`: the character list `n` occurs contiguously in `h`
(Python's `n in h` on strings). -/
def listContains (n : List Char) : List Char → Bool
  | [] => listStartsWith n []
  | c :: hs => listStartsWith n (c :: hs) || listContains n hs

/-- Python `s.lower()`, as a character list (`String.toLower` mapped over
the string's characters). -/
def lowerChars (s : String) : List Char :=
  s.data.map Char.toLower

/-- Python `needle.lower() in hay.lower()` (case-insensitive substring). -/
def strContainsCI (hay needle : String) : Bool :=
  listContains (lowerChars needle) (lowerChars hay)

/-- Python string `<`: lexicographic comparison of the code-point
sequences. -/
def strLt (a b : String) : Bool :=
  go a.data b.data
where
  go : List Char → List Char → Bool
    | [], [] => false
    | [], _ :: _ => true
    | _ :: _, [] => false
    | c :: cs, d :: ds => c < d || (c = d && go cs ds)

/-- Python `s.upper()` (`String.toUpper`, character by character). -/
def upperStr (s : String) : String :=
  String.mk (s.data.map Char.toUpper)

/-! ## Association-list buckets (Python `dict.setdefault(k, []).append(x)`)

Python dicts preserve key insertion order; `insB` appends a new key at the
end and appends the value to an existing key's list in place. -/

section Buckets

variable {κ : Type} {α : Type} [DecidableEq κ]

/-- One step of `buckets.setdefault(k, []).append(x)`. -/
def insB : List (κ × List α) → κ → α → List (κ × List α)
  | [], k, x => [(k, [x])]
  | (k', v) :: rest, k, x =>
    if k' = k then (k', v ++ [x]) :: rest else (k', v) :: insB rest k x

/-- Build the bucket dict of a list, keyed by `key`, in iteration order. -/
def bucketsBy (key : α → κ) (l : List α) : List (κ × List α) :=
  l.foldl (fun acc x => insB acc (key x) x) []

/-- Lookup of a key: value list of the first (hence only) entry for `k`. -/
def bGet (k : κ) : List (κ × List α) → List α
  | [] => []
  | (k', v) :: rest => if k' = k then v else bGet k rest

theorem bGet_insB (acc : List (κ × List α)) (k k' : κ) (x : α) :
    bGet k (insB acc k' x) = bGet k acc ++ (if k' = k then [x] else []) := by
  induction acc with
  | nil =>
      by_cases h : k' = k <;> simp [insB, bGet, h]
  | cons p rest ih =>
      obtain ⟨pk, pv⟩ := p
      simp only [insB]
      by_cases h1 : pk = k'
      · rw [if_pos h1]
        by_cases h2 : pk = k
        · have hk : k' = k := h1.symm.trans h2
          simp [bGet, h2, hk]
        · have hk : ¬(k' = k) := fun hh => h2 (h1.trans hh)
          simp [bGet, h2, hk]
      · rw [if_neg h1]
        by_cases h2 : pk = k
        · have hk : ¬(k' = k) := fun hh => h1 (h2.trans hh.symm)
          simp [bGet, h2, hk]
        · simp [bGet, h2, ih]

theorem bGet_foldl (key : α → κ) (k : κ) :
    ∀ (l : List α) (acc : List (κ × List α)),
      bGet k (l.foldl (fun acc x => insB acc (key x) x) acc) =
        bGet k acc ++ l.filter (fun x => key x = k)
  | [], acc => by simp
  | x :: t, acc => by
      rw [List.foldl_cons, bGet_foldl key k t]
      by_cases h : key x = k
      · simp [bGet_insB, h, List.filter_cons]
      · simp [bGet_insB, h, List.filter_cons]

/-- The bucket for `k` is exactly the sublist of elements keyed `k`,
in input order. -/
theorem bucketsBy_get (key : α → κ) (l : List α) (k : κ) :
    bGet k (bucketsBy key l) = l.filter (fun x => key x = k) := by
  simpa [bucketsBy] using bGet_foldl key k l []

theorem keys_insB (acc : List (κ × List α)) (k : κ) (x : α) :
    (insB acc k x).map Prod.fst =
      if k ∈ acc.map Prod.fst then acc.map Prod.fst
      else acc.map Prod.fst ++ [k] := by
  induction acc with
  | nil => simp [insB]
  | cons p rest ih =>
      obtain ⟨pk, pv⟩ := p
      by_cases h : pk = k
      · simp [insB, h]
      · have hne : ¬(k = pk) := fun hh => h hh.symm
        simp only [insB, if_neg h, List.map_cons, ih, List.mem_cons]
        by_cases h2 : k ∈ rest.map Prod.fst
        · simp [h2, hne]
        · simp [h2, hne]

theorem keys_nodup_insB {acc : List (κ × List α)} (k : κ) (x : α)
    (h : (acc.map Prod.fst).Nodup) : ((insB acc k x).map Prod.fst).Nodup := by
  rw [keys_insB]
  by_cases hm : k ∈ acc.map Prod.fst
  · simpa [hm]
  · rw [if_neg hm]
    refine List.Nodup.append h (List.nodup_singleton k) ?_
    intro a ha hak
    simp only [List.mem_singleton] at hak
    subst hak
    exact hm ha

theorem mem_keys_insB {acc : List (κ × List α)} {k k' : κ} {x : α} :
    k ∈ (insB acc k' x).map Prod.fst ↔ k ∈ acc.map Prod.fst ∨ k = k' := by
  rw [keys_insB]
  by_cases hm : k' ∈ acc.map Prod.fst
  · simp only [if_pos hm]
    constructor
    · exact Or.inl
    · rintro (h | rfl) <;> [exact h; exact hm]
  · simp [if_neg hm]

theorem bucketsBy_keys_nodup (key : α → κ) (l : List α) :
    ((bucketsBy key l).map Prod.fst).Nodup := by
  suffices h : ∀ (l : List α) (acc : List (κ × List α)),
      (acc.map Prod.fst).Nodup →
      ((l.foldl (fun acc x => insB acc (key x) x) acc).map Prod.fst).Nodup by
    exact h l [] (by simp)
  intro l
  induction l with
  | nil => intro acc h; simpa using h
  | cons x t ih =>
      intro acc h
      exact ih _ (keys_nodup_insB _ _ h)

theorem mem_keys_bucketsBy (key : α → κ) (l : List α) (k : κ) :
    k ∈ (bucketsBy key l).map Prod.fst ↔ ∃ x ∈ l, key x = k := by
  suffices h : ∀ (l : List α) (acc : List (κ × List α)),
      (k ∈ (l.foldl (fun acc x => insB acc (key x) x) acc).map Prod.fst ↔
        k ∈ acc.map Prod.fst ∨ ∃ x ∈ l, key x = k) by
    simpa [bucketsBy] using h l []
  intro l
  induction l with
  | nil => intro acc; simp
  | cons x t ih =>
      intro acc
      rw [List.foldl_cons, ih]
      rw [mem_keys_insB]
      constructor
      · rintro ((h | h) | ⟨y, hy, rfl⟩)
        · exact Or.inl h
        · exact Or.inr ⟨x, by simp, h.symm⟩
        · exact Or.inr ⟨y, by simp [hy], rfl⟩
      · rintro (h | ⟨y, hy, rfl⟩)
        · exact Or.inl (Or.inl h)
        · rcases List.mem_cons.mp hy with rfl | hy
          · exact Or.inl (Or.inr rfl)
          · exact Or.inr ⟨y, hy, rfl⟩

/-- With distinct keys, membership of a pair is determined by `bGet`. -/
theorem mem_iff_bGet {acc : List (κ × List α)} (hnd : (acc.map Prod.fst).Nodup)
    {k : κ} {v : List α} :
    (k, v) ∈ acc ↔ k ∈ acc.map Prod.fst ∧ bGet k acc = v := by
  induction acc with
  | nil => simp
  | cons p rest ih =>
      obtain ⟨pk, pv⟩ := p
      simp only [List.map_cons, List.nodup_cons] at hnd
      by_cases h : pk = k
      · subst h
        constructor
        · intro hmem
          rcases List.mem_cons.mp hmem with heq | hmem2
          · have hv : v = pv := congrArg Prod.snd heq
            subst hv
            exact ⟨by simp, by simp [bGet]⟩
          · exact absurd (List.mem_map_of_mem Prod.fst hmem2) hnd.1
        · rintro ⟨-, hv⟩
          simp only [bGet, if_pos rfl] at hv
          subst hv
          exact List.mem_cons_self _ _
      · constructor
        · intro hmem
          rcases List.mem_cons.mp hmem with heq | hmem2
          · exact absurd (congrArg Prod.fst heq) (fun hh => h hh.symm)
          · obtain ⟨hk, hv⟩ := (ih hnd.2).mp hmem2
            refine ⟨by simp only [List.map_cons, List.mem_cons]; exact Or.inr hk, ?_⟩
            simpa [bGet, h] using hv
        · rintro ⟨hk, hv⟩
          simp only [List.map_cons, List.mem_cons] at hk
          rcases hk with hk1 | hk2
          · exact absurd hk1.symm h
          · have hv2 : bGet k rest = v := by simpa [bGet, h] using hv
            exact List.mem_cons_of_mem _ ((ih hnd.2).mpr ⟨hk2, hv2⟩)

/-- Every value in every bucket has the bucket's key. -/
theorem bucketsBy_key_of_mem (key : α → κ) (l : List α) :
    ∀ p ∈ bucketsBy key l, ∀ x ∈ p.2, key x = p.1 := by
  suffices h : ∀ (l : List α) (acc : List (κ × List α)),
      (∀ p ∈ acc, ∀ x ∈ p.2, key x = p.1) →
      ∀ p ∈ l.foldl (fun acc x => insB acc (key x) x) acc,
        ∀ x ∈ p.2, key x = p.1 by
    exact h l [] (by simp)
  intro l
  induction l with
  | nil => intro acc h; simpa using h
  | cons y t ih =>
      intro acc hacc
      refine ih _ ?_
      clear ih
      induction acc with
      | nil =>
          intro p hp x hx
          simp only [insB, List.mem_singleton] at hp
          subst hp
          simp only [List.mem_singleton] at hx
          subst hx
          rfl
      | cons q rest ih2 =>
          obtain ⟨qk, qv⟩ := q
          intro p hp x hx
          by_cases h : qk = key y
          · simp only [insB, if_pos h, List.mem_cons] at hp
            rcases hp with rfl | hp
            · simp only [List.mem_append, List.mem_singleton] at hx
              rcases hx with hx | rfl
              · exact hacc (qk, qv) (by simp) x hx
              · exact h.symm
            · exact hacc p (by simp [hp]) x hx
          · simp only [insB, if_neg h, List.mem_cons] at hp
            rcases hp with rfl | hp
            · exact hacc (qk, qv) (by simp) x hx
            · exact ih2 (fun p hp x hx => hacc p (by simp [hp]) x hx) p hp x hx

/-- Buckets are never empty. -/
theorem bucketsBy_ne_nil (key : α → κ) (l : List α) :
    ∀ p ∈ bucketsBy key l, p.2 ≠ [] := by
  suffices h : ∀ (l : List α) (acc : List (κ × List α)),
      (∀ p ∈ acc, p.2 ≠ []) →
      ∀ p ∈ l.foldl (fun acc x => insB acc (key x) x) acc, p.2 ≠ [] by
    exact h l [] (by simp)
  intro l
  induction l with
  | nil => intro acc h; simpa using h
  | cons y t ih =>
      intro acc hacc
      refine ih _ ?_
      clear ih
      induction acc with
      | nil =>
          intro p hp
          simp only [insB, List.mem_singleton] at hp
          subst hp
          simp
      | cons q rest ih2 =>
          obtain ⟨qk, qv⟩ := q
          intro p hp
          by_cases h : qk = key y
          · simp only [insB, if_pos h, List.mem_cons] at hp
            rcases hp with rfl | hp
            · simp
            · exact hacc p (by simp [hp])
          · simp only [insB, if_neg h, List.mem_cons] at hp
            rcases hp with rfl | hp
            · exact hacc (qk, qv) (by simp)
            · exact ih2 (fun p hp => hacc p (by simp [hp])) p hp

end Buckets

/-! ## `nz_trans_tasman_price_watch.py` -/

namespace NzTrans

/-- `PREM_MAX_NZD` default. -/
def PREM_MAX : Int := 1300

/-- `BUS_MAX_NZD` default. -/
def BUS_MAX : Int := 1500

/-- `CABIN_MAX_NZD.get(cabin, 0)`: the per-cabin cap, defaulting to 0
for a cabin code outside the dict. -/
def CABIN_MAX_NZD (cabin : String) : Int :=
  if cabin = "W" then PREM_MAX else if cabin = "C" then BUS_MAX else 0

/-- `within_cap(cabin, price)`: `price <= CABIN_MAX_NZD.get(cabin, 0)`. -/
def within_cap (cabin : String) (price : Int) : Bool :=
  price ≤ CABIN_MAX_NZD cabin

/-- One segment of a Tequila `route` array (the fields the script reads). -/
structure Seg where
  flyFrom : String
  flyTo : String
  local_departure : Date
deriving DecidableEq, Repr

/-- One raw Tequila result item (the fields the script reads).
`price` is `None` when the `"price"` key is absent. -/
structure Item where
  route : List Seg
  fare_category : Option String
  price : Option ℚ
  deep_link : Option String
deriving DecidableEq, Repr

/-- `price_nzd(item)`: `int(math.ceil(item.get("price", 0)))` — note the
missing-price default of 0. -/
def price_nzd (item : Item) : Int :=
  Int.ceil (item.price.getD 0)

/-- `build_link(item)`: `item.get("deep_link") or "#"`. -/
def build_link (item : Item) : String :=
  match item.deep_link with
  | some s => if s = "" then "#" else s
  | none => "#"

/-- The itinerary dict built by `extract_itinerary`. -/
structure Itin where
  origin : String
  dest : String
  depart_date : Date
  return_date : Date
  cabin : String
  price_nzd : Int
  link : String
  airline : String
deriving DecidableEq, Repr

/-- `extract_itinerary(item, cabin, origin, dest)`: `None` for an empty
route; outbound = first segment with `flyFrom == origin`, inbound = last
segment with `flyTo == origin`, falling back to the first/last segments;
drops mixed-cabin items via `fare_category`; drops items over the cap. -/
def extract_itinerary (item : Item) (cabin origin dest : String) : Option Itin :=
  match item.route with
  | [] => none
  | r0 :: rest =>
    let out_leg := (r0 :: rest).find? (fun s => s.flyFrom = origin)
    let ret_leg := (r0 :: rest).reverse.find? (fun s => s.flyTo = origin)
    let dates : Date × Date :=
      match out_leg, ret_leg with
      | some o, some r => (o.local_departure, r.local_departure)
      | _, _ =>
          (r0.local_departure,
            ((r0 :: rest).getLast (List.cons_ne_nil r0 rest)).local_departure)
    let fare_ok : Bool :=
      match item.fare_category with
      | some fc => fc = "" || fc = cabin
      | none => true
    if fare_ok then
      let price := price_nzd item
      if within_cap cabin price then
        some ⟨origin, dest, dates.1, dates.2, cabin, price, build_link item, "NZ"⟩
      else none
    else none

/-- Outcome of one `tequila_search_roundtrip` call: a data list, or a
raised exception (missing API key, HTTP error, JSON error, ...). -/
inductive SearchOutcome where
  | ok (items : List Item)
  | raised
deriving Repr

/-- `scan_routes()`, parametrised by the provider call.  Returns the
accumulated `results` list together with the number of provider queries
attempted (one per (route, cabin) iteration; an exception is caught,
printed, and treated as zero items). -/
def scan_routes (provider : String → String → String → SearchOutcome)
    (routes : List (String × String)) : List Itin × Nat :=
  routes.foldl
    (fun st od =>
      ["W", "C"].foldl
        (fun st cabin =>
          let items :=
            match provider od.1 od.2 cabin with
            | .ok its => its
            | .raised => []
          (st.1 ++ items.filterMap (fun it => extract_itinerary it cabin od.1 od.2),
            st.2 + 1))
        st)
    ([], 0)

/-- `month_key(d)`: `d.strftime("%Y-%m")`, embedded as the (year, month)
pair; lexicographic comparison of the zero-padded strings coincides with
lexicographic comparison of the pairs. -/
def month_key (d : Date) : Nat × Nat :=
  (d.year, d.month)

/-- The row sort key used inside each month bucket:
`(x["price_nzd"], x["depart_date"], x["return_date"])`, compared
lexicographically as Python compares tuples. -/
def itinLe (a b : Itin) : Bool :=
  a.price_nzd < b.price_nzd ||
    (a.price_nzd = b.price_nzd &&
      (Date.lt a.depart_date b.depart_date ||
        (a.depart_date = b.depart_date && Date.le a.return_date b.return_date)))

theorem itinLe_trans (a b c : Itin) (h₁ : itinLe a b = true)
    (h₂ : itinLe b c = true) : itinLe a c = true := by
  obtain ⟨_, _, ⟨ady, adm, add⟩, ⟨ary, arm, ard⟩, _, ap, _, _⟩ := a
  obtain ⟨_, _, ⟨bdy, bdm, bdd⟩, ⟨bry, brm, brd⟩, _, bp, _, _⟩ := b
  obtain ⟨_, _, ⟨cdy, cdm, cdd⟩, ⟨cry, crm, crd⟩, _, cp, _, _⟩ := c
  simp only [itinLe, Date.lt, Date.le, Date.mk.injEq, Bool.or_eq_true,
    Bool.and_eq_true, decide_eq_true_eq] at *
  omega

theorem itinLe_total (a b : Itin) : itinLe a b || itinLe b a := by
  obtain ⟨_, _, ⟨ady, adm, add⟩, ⟨ary, arm, ard⟩, _, ap, _, _⟩ := a
  obtain ⟨_, _, ⟨bdy, bdm, bdd⟩, ⟨bry, brm, brd⟩, _, bp, _, _⟩ := b
  simp only [itinLe, Date.lt, Date.le, Date.mk.injEq, Bool.or_eq_true,
    Bool.and_eq_true, decide_eq_true_eq]
  omega

/-- `itinLe` in both directions pins down the sort key. -/
theorem itinLe_antisymm_key (a b : Itin) (h₁ : itinLe a b = true)
    (h₂ : itinLe b a = true) :
    a.price_nzd = b.price_nzd ∧ a.depart_date = b.depart_date ∧
      a.return_date = b.return_date := by
  obtain ⟨_, _, ⟨ady, adm, add⟩, ⟨ary, arm, ard⟩, _, ap, _, _⟩ := a
  obtain ⟨_, _, ⟨bdy, bdm, bdd⟩, ⟨bry, brm, brd⟩, _, bp, _, _⟩ := b
  simp only [itinLe, Date.lt, Date.le, Date.mk.injEq, Bool.or_eq_true,
    Bool.and_eq_true, decide_eq_true_eq] at *
  refine ⟨?_, ⟨?_, ?_, ?_⟩, ?_, ?_, ?_⟩ <;> omega

/-- `month_groups(hits)`: bucket by departure month (insertion order),
sort each bucket by `(price_nzd, depart_date, return_date)` (Python's
stable `list.sort`), then emit buckets sorted by month key
(`dict(sorted(buckets.items()))`). -/
def month_groups (hits : List Itin) : List ((Nat × Nat) × List Itin) :=
  let buckets := bucketsBy (fun h => month_key h.depart_date) hits
  (buckets.map (fun p => (p.1, p.2.mergeSort itinLe))).mergeSort
    (fun a b => ymLe a.1 b.1)

/-- `badge_color(cabin, price)`: green at ≤ 80% of the cap, amber within
the cap, grey (`#9ca3af`) above the cap.  `int(0.8 * cap)` equals
`8 * cap / 10` (integer division) for the non-negative integer caps in
use (1300 → 1040, 1500 → 1200). -/
def badge_color (cabin : String) (price : Int) : String :=
  let cap := CABIN_MAX_NZD cabin
  if price ≤ cap then
    if price ≤ 8 * cap / 10 then "#16a34a"
    else "#f59e0b"
  else "#9ca3af"

end NzTrans

/-! ## `grabaseat_daily.py` -/

namespace Grabaseat

/-- `CABINS`: `(cabinName, NZD ceiling)` pairs, in order. -/
def CABINS : List (String × ℚ) := [("Premium Economy", 1300), ("Business", 1500)]

/-- `RET_MIN_NIGHTS` / `RET_MAX_NIGHTS` / `MONTHS_AHEAD`. -/
def RET_MIN_NIGHTS : Nat := 28

def RET_MAX_NIGHTS : Nat := 35

/-- The night counts tried per departure date in `run_scan`:
`(RET_MIN_NIGHTS, (RET_MIN_NIGHTS + RET_MAX_NIGHTS)//2, RET_MAX_NIGHTS)`.
Always a three-element tuple, whatever the min/max. -/
def nightsAxis (minN maxN : Nat) : List Nat :=
  [minN, (minN + maxN) / 2, maxN]

/-- Helper for `within_caps`: walk the `CABINS` list and return the first
cap whose cabin name is a (case-insensitive) substring of the offer's
cabin label. -/
def capsLookup (cabin : String) : List (String × ℚ) → Option ℚ
  | [] => none
  | (cab, cap) :: rest =>
      if strContainsCI cabin cab then some cap else capsLookup cabin rest

/-- `within_caps(cabin, price_nzd)`: `price_nzd <= cap` for the first
matching cabin; `False` when no configured cabin name matches. -/
def within_caps (cabin : String) (price_nzd : ℚ) : Bool :=
  go CABINS
where
  go : List (String × ℚ) → Bool
    | [] => false
    | (cab, cap) :: rest =>
        if strContainsCI cabin cab then price_nzd ≤ cap else go rest

theorem within_caps_eq_capsLookup (cabin : String) (price : ℚ) :
    within_caps cabin price =
      match capsLookup cabin CABINS with
      | some cap => decide (price ≤ cap)
      | none => false := by
  show within_caps.go cabin price CABINS = _
  induction CABINS with
  | nil => rfl
  | cons p rest ih =>
      obtain ⟨cab, cap⟩ := p
      by_cases h : strContainsCI cabin cab
      · simp [within_caps.go, capsLookup, h]
      · simp only [within_caps.go, capsLookup, if_neg h]
        exact ih

/-- One normalized offer dict, as produced by `parse_results`. -/
structure Offer where
  origin : String
  dest : String
  dep : Date
  ret : Date
  cabin : String
  price_nzd : ℚ
  carrier : String
  operated_by : String
  link : String
deriving DecidableEq, Repr

/-- One raw item of the provider response (the fields `parse_results`
reads).  A `none` models an absent key; dates that are present but
unparseable also surface as `none` (the `except` clause drops the item
either way). -/
structure RawItem where
  marketingCarrier : Option String
  operatedBy : Option String
  cabin : Option String
  cabinClass : Option String
  priceAmount : Option ℚ
  priceCurrency : Option String
  outboundDate : Option Date
  departDate : Option Date
  inboundDate : Option Date
  returnDate : Option Date
  origin : Option String
  fromCode : Option String
  destination : Option String
  toCode : Option String
  deeplink : Option String
  url : Option String
deriving DecidableEq, Repr

/-- Python truthiness filter on an optional string: `None` and `""` are
falsy. -/
def truthyS : Option String → Option String
  | some s => if s = "" then none else some s
  | none => none

/-- Python truthiness on an optional number: `None`, `0` and `0.0` are
falsy (this is what `all([...])` tests). -/
def truthyQ : Option ℚ → Option ℚ
  | some q => if q = 0 then none else some q
  | none => none

/-- Python `a or b` on two optional fields (first truthy value). -/
def firstS (a b : Option String) : Option String :=
  match truthyS a with
  | some s => some s
  | none => truthyS b

/-- `item.get(k1, {}).get("date") or item.get(k2)` on date fields. -/
def firstD (a b : Option Date) : Option Date :=
  match a with
  | some d => some d
  | none => b

/-- The body of the `for item in data:` loop of `parse_results`: `None`
models `continue`.  The mandatory-field test is
`all([origin, dest, dep, ret, total, currency, cabin])` (truthiness);
the currency conditional is embedded exactly as written —
`float(total) if (currency == "NZD" or currency is None) else float(total)` —
both branches produce the same amount. -/
def parse_item (it : RawItem) : Option Offer :=
  let carrier := upperStr (it.marketingCarrier.getD "")
  let operated :=
    upperStr
      (match truthyS it.operatedBy with
       | some s => s
       | none => carrier)
  let cabin := (firstS it.cabin it.cabinClass).getD ""
  let link := (firstS it.deeplink it.url).getD "https://grabaseat.co.nz"
  match truthyQ it.priceAmount, truthyS it.priceCurrency,
      firstD it.outboundDate it.departDate,
      firstD it.inboundDate it.returnDate,
      firstS it.origin it.fromCode, firstS it.destination it.toCode with
  | some total, some currency, some dep, some ret, some origin, some dest =>
      if cabin = "" then none
      else
        some
          { origin := origin, dest := dest, dep := dep, ret := ret,
            cabin := cabin,
            price_nzd := if currency = "NZD" then total else total,
            carrier := carrier, operated_by := operated, link := link }
  | _, _, _, _, _, _ => none

/-- `parse_results(payload)`: per-item normalization, faulty items dropped. -/
def parse_results (items : List RawItem) : List Offer :=
  items.filterMap parse_item

/-- The client-side filter applied to each parsed offer inside `run_scan`
(cabin cross-check, operated-by check, price-cap check). -/
def acceptOffer (cabin : String) (off : Offer) : Bool :=
  !(strContainsCI cabin "premium" && !strContainsCI off.cabin "premium") &&
    !(strContainsCI cabin "business" && !strContainsCI off.cabin "business") &&
    (off.operated_by = "NZ") &&
    within_caps off.cabin off.price_nzd

/-- The accumulation loop of `run_scan`: each (pair, cabin, depart, nights)
iteration contributes its parsed offers filtered by `acceptOffer`, appended
to `all_hits` in order.  `queries` abstracts the enumerated iterations as
(requested cabin, parsed offers of the response payload). -/
def run_scan (queries : List (String × List Offer)) : List Offer :=
  queries.foldl (fun acc q => acc ++ q.2.filter (acceptOffer q.1)) []

/-- The dedup key of §4.5: (origin, destination, cabin, departureDate,
returnDate). -/
def dedupKey (o : Offer) : String × String × String × Date × Date :=
  (o.origin, o.dest, o.cabin, o.dep, o.ret)

/-- Number of accumulated entries sharing a dedup key. -/
def countKey (k : String × String × String × Date × Date)
    (l : List Offer) : Nat :=
  (l.filter (fun o => dedupKey o = k)).length

/-- The within-month row ordering of `build_html`:
`sorted(rows, key=lambda x: (x["origin"], x["dest"], x["dep"], x["price_nzd"]))`. -/
def rowLe (a b : Offer) : Bool :=
  strLt a.origin b.origin ||
    (a.origin = b.origin &&
      (strLt a.dest b.dest ||
        (a.dest = b.dest &&
          (Date.lt a.dep b.dep ||
            (a.dep = b.dep && a.price_nzd ≤ b.price_nzd)))))

/-- The month grouping of `build_html`: bucket by departure month
(`nz_month_key`, i.e. "%B %Y", embedded as the (year, month) pair —
`build_html` restores chronological bucket order by `strptime`-sorting
the labels), then each month's rows sorted by `rowLe`. -/
def build_html_rows (results : List Offer) :
    List ((Nat × Nat) × List Offer) :=
  let months := bucketsBy (fun r => (r.dep.year, r.dep.month)) results
  (months.map (fun p => (p.1, p.2.mergeSort rowLe))).mergeSort
    (fun a b => ymLe a.1 b.1)

/-- `colour_for(cabin, price)`: green at ≤ 85% of the cap, else amber —
there is no grey branch in this script. -/
def colour_for (cabin : String) (price : ℚ) : String :=
  let cap := (capsLookup cabin CABINS).getD 0
  if price ≤ cap * (85 / 100 : ℚ) then "#1a7f37" else "#ad7f00"

end Grabaseat

/-! ## `anz_grabaseat_daily.py` (Amadeus variant) -/

namespace AnzGrabaseat

/-- `PE_CAP` / `J_CAP` defaults (Decimal, NZD). -/
def PE_CAP : ℚ := 1300

def J_CAP : ℚ := 1500

/-- `MIN_RET_DAYS` / `MAX_RET_DAYS` defaults. -/
def MIN_RET_DAYS : Nat := 8

def MAX_RET_DAYS : Nat := 12

/-- The return-gap axis of `collect_rows_for_pair`:
`range(MIN_RET_DAYS, MAX_RET_DAYS + 1)` — empty when the lower bound
exceeds the upper bound, as Python's `range`. -/
def retGaps (minR maxR : Nat) : List Nat :=
  List.range' minR (maxR + 1 - minR)

/-- `extract_price_nzd(offer)`: `None` unless `price["currency"] == "NZD"`;
then `Decimal(price["grandTotal"])`, where an absent or unparseable
`grandTotal` raises and is caught as `None` (modelled by an `Option ℚ`
input). -/
def extract_price_nzd (currency : Option String) (grandTotal : Option ℚ) :
    Option ℚ :=
  if currency = some "NZD" then grandTotal else none

/-- One offer as seen by the filter chain of `collect_rows_for_pair`:
the extracted cabin string, the raw price fields, the carrier code. -/
structure AOffer where
  cabin : String
  priceCurrency : Option String
  grandTotal : Option ℚ
  carrier : String
deriving DecidableEq, Repr

/-- The filter chain of `collect_rows_for_pair`: reject non-PE/J cabins,
reject offers without an NZD price, reject prices strictly above the
cabin's cap; return the accepted price. -/
def keepOffer (off : AOffer) : Option ℚ :=
  if off.cabin = "PREMIUM_ECONOMY" ∨ off.cabin = "BUSINESS" then
    match extract_price_nzd off.priceCurrency off.grandTotal with
    | none => none
    | some price =>
        if off.cabin = "PREMIUM_ECONOMY" ∧ price > PE_CAP then none
        else if off.cabin = "BUSINESS" ∧ price > J_CAP then none
        else some price
  else none

/-- `main()`'s query count as a function of the token-acquisition outcome:
`get_amadeus_token()` returning `None` makes `main` return before any
search query; the process still exits with status 0 (there is no
`sys.exit` on this path). -/
def main_attempts (token : Option String) (queryCount : Nat) : Nat :=
  match token with
  | none => 0
  | some _ => queryCount

/-- The process exit status of `main()`: always 0 — also on the
missing-token path. -/
def main_exit (_token : Option String) : Nat := 0

end AnzGrabaseat

/-! ## `scripts/anz_grabaseat_daily.py` (dummy-data variant) -/

namespace AnzDummy

def MAX_PREM_ECON : Int := 1300

def MAX_BUSINESS : Int := 1500

/-- One synthetic row (the fields `filter_by_threshold` reads);
`price_nzd` is read with `r.get("price_nzd", 0)`. -/
structure Row where
  cabin : Option String
  price_nzd : Option Int
deriving DecidableEq, Repr

/-- The per-row test of `filter_by_threshold`: keep `W` rows at
`price <= MAX_PREM_ECON`, `J` rows at `price <= MAX_BUSINESS`, drop
everything else. -/
def row_accept (cabin : Option String) (price : Int) : Bool :=
  match cabin with
  | some "W" => price ≤ MAX_PREM_ECON
  | some "J" => price ≤ MAX_BUSINESS
  | _ => false

/-- `filter_by_threshold(rows)`. -/
def filter_by_threshold (rows : List Row) : List Row :=
  rows.filter (fun r => row_accept r.cabin (r.price_nzd.getD 0))

end AnzDummy

/-! ## `nz_au_premium_daily.py` -/

namespace NzAuPremium

def RETRIES : Nat := 3

def BACKOFF_SECONDS : Nat := 3

/-- Outcome of one `urllib.request.urlopen` call inside `safe_get`. -/
inductive Resp where
  | ok (body : String)
  | httpErr (code : Nat)
  | exc
deriving DecidableEq, Repr

/-- A failure that `safe_get` goes on to retry: any exception except an
HTTP 404 (`if e.code == 404: break`). -/
def isRetryableFailure : Resp → Bool
  | .ok _ => false
  | .httpErr c => c ≠ 404
  | .exc => true

/-- What a `safe_get` run did: the returned body (or `None`), the number
of `urlopen` attempts made, and the `time.sleep` durations in order. -/
structure GetResult where
  result : Option String
  attempts : Nat
  sleeps : List Nat
deriving DecidableEq, Repr

/-- The retry loop `for a in range(1, RETRIES + 1)` of `safe_get`,
structurally recursing on the number of remaining iterations: attempt
number `a`, `fuel` iterations left.  A success returns the body; a 404
breaks; any other failure sleeps `a * BACKOFF_SECONDS` and continues. -/
def safe_get_go (resp : Nat → Resp) : Nat → Nat → GetResult
  | 0, _ => ⟨none, 0, []⟩
  | fuel + 1, a =>
    match resp a with
    | .ok s => ⟨some s, 1, []⟩
    | .httpErr code =>
        if code = 404 then ⟨none, 1, []⟩
        else
          let r := safe_get_go resp fuel (a + 1)
          ⟨r.result, r.attempts + 1, a * BACKOFF_SECONDS :: r.sleeps⟩
    | .exc =>
        let r := safe_get_go resp fuel (a + 1)
        ⟨r.result, r.attempts + 1, a * BACKOFF_SECONDS :: r.sleeps⟩

/-- `safe_get(req)`, with the network modelled as the outcome of the
`a`-th attempt; returns `None` once the attempts are exhausted. -/
def safe_get (resp : Nat → Resp) : GetResult :=
  safe_get_go resp RETRIES 1

theorem safe_get_go_attempts_le (resp : Nat → Resp) :
    ∀ fuel a, (safe_get_go resp fuel a).attempts ≤ fuel := by
  intro fuel
  induction fuel with
  | zero => intro a; simp [safe_get_go]
  | succ n ih =>
      intro a
      cases h : resp a with
      | ok s => simp [safe_get_go, h]
      | httpErr code =>
          by_cases h4 : code = 404
          · simp [safe_get_go, h, h4]
          · simp only [safe_get_go, h, if_neg h4]
            exact Nat.succ_le_succ (ih (a + 1))
      | exc =>
          simp only [safe_get_go, h]
          exact Nat.succ_le_succ (ih (a + 1))

theorem safe_get_go_sleeps (resp : Nat → Resp) :
    ∀ fuel a i s, (safe_get_go resp fuel a).sleeps.get? i = some s →
      s = (a + i) * BACKOFF_SECONDS := by
  intro fuel
  induction fuel with
  | zero => intro a i s h; simp [safe_get_go] at h
  | succ n ih =>
      intro a i s h
      cases hr : resp a with
      | ok b => simp [safe_get_go, hr] at h
      | httpErr code =>
          by_cases h4 : code = 404
          · simp [safe_get_go, hr, h4] at h
          · simp only [safe_get_go, hr, if_neg h4] at h
            cases i with
            | zero =>
                simp only [List.get?_cons_zero, Option.some.injEq] at h
                subst h; ring
            | succ j =>
                simp only [List.get?_cons_succ] at h
                rw [ih (a + 1) j s h]; ring
      | exc =>
          simp only [safe_get_go, hr] at h
          cases i with
          | zero =>
              simp only [List.get?_cons_zero, Option.some.injEq] at h
              subst h; ring
          | succ j =>
              simp only [List.get?_cons_succ] at h
              rw [ih (a + 1) j s h]; ring

theorem safe_get_go_sleeps_len (resp : Nat → Resp) :
    ∀ fuel a, (safe_get_go resp fuel a).attempts ≤
      (safe_get_go resp fuel a).sleeps.length + 1 := by
  intro fuel
  induction fuel with
  | zero => intro a; simp [safe_get_go]
  | succ n ih =>
      intro a
      cases h : resp a with
      | ok s => simp [safe_get_go, h]
      | httpErr code =>
          by_cases h4 : code = 404
          · simp [safe_get_go, h, h4]
          · simp only [safe_get_go, h, if_neg h4, List.length_cons]
            exact Nat.succ_le_succ (ih (a + 1))
      | exc =>
          simp only [safe_get_go, h, List.length_cons]
          exact Nat.succ_le_succ (ih (a + 1))

theorem safe_get_go_exhaust (resp : Nat → Resp) :
    ∀ fuel a, (∀ b, a ≤ b → b < a + fuel → isRetryableFailure (resp b) = true) →
      (safe_get_go resp fuel a).result = none ∧
        (safe_get_go resp fuel a).attempts = fuel := by
  intro fuel
  induction fuel with
  | zero => intro a _; simp [safe_get_go]
  | succ n ih =>
      intro a hall
      have ha : isRetryableFailure (resp a) = true := hall a le_rfl (by omega)
      cases hr : resp a with
      | ok s => rw [hr] at ha; simp [isRetryableFailure] at ha
      | httpErr code =>
          rw [hr] at ha
          simp only [isRetryableFailure, ne_eq, decide_eq_true_eq] at ha
          simp only [safe_get_go, hr, if_neg ha]
          have := ih (a + 1) (fun b hb1 hb2 => hall b (by omega) (by omega))
          exact ⟨this.1, by rw [this.2]⟩
      | exc =>
          simp only [safe_get_go, hr]
          have := ih (a + 1) (fun b hb1 hb2 => hall b (by omega) (by omega))
          exact ⟨this.1, by rw [this.2]⟩

theorem safe_get_go_notfound (resp : Nat → Resp) :
    ∀ fuel a b, a ≤ b → b < a + fuel → resp b = .httpErr 404 →
      (∀ c, a ≤ c → c < b → isRetryableFailure (resp c) = true) →
      (safe_get_go resp fuel a).attempts = b + 1 - a ∧
        (safe_get_go resp fuel a).result = none := by
  intro fuel
  induction fuel with
  | zero => intro a b h1 h2; omega
  | succ n ih =>
      intro a b hab hlt h404 hbefore
      by_cases hba : b = a
      · subst hba
        simp [safe_get_go, h404]
      · have ha : isRetryableFailure (resp a) = true :=
          hbefore a le_rfl (by omega)
        cases hr : resp a with
        | ok s => rw [hr] at ha; simp [isRetryableFailure] at ha
        | httpErr code =>
            rw [hr] at ha
            simp only [isRetryableFailure, ne_eq, decide_eq_true_eq] at ha
            simp only [safe_get_go, hr, if_neg ha]
            have := ih (a + 1) b (by omega) (by omega) h404
              (fun c hc1 hc2 => hbefore c (by omega) hc2)
            refine ⟨by rw [this.1]; omega, this.2⟩
        | exc =>
            simp only [safe_get_go, hr]
            have := ih (a + 1) b (by omega) (by omega) h404
              (fun c hc1 hc2 => hbefore c (by omega) hc2)
            refine ⟨by rw [this.1]; omega, this.2⟩

end NzAuPremium

/-- The per-cabin cap against which `collect_rows_for_pair` compares an
NZD price (`PE_CAP` for premium economy, `J_CAP` for business). -/
def AnzGrabaseat.cap_for (cabin : String) : ℚ :=
  if cabin = "PREMIUM_ECONOMY" then AnzGrabaseat.PE_CAP else AnzGrabaseat.J_CAP

/-! ## Claims -/

/-- C1: in every filtering path, the price-cap comparison is inclusive:
an offer priced exactly at its cabin's configured cap is accepted, and an
offer priced strictly above it is rejected.  This covers
`within_cap` (`nz_trans_tasman_price_watch.py`), `within_caps`
(`grabaseat_daily.py`), the cap rejections of `collect_rows_for_pair`
(`anz_grabaseat_daily.py`), and `filter_by_threshold`
(`scripts/anz_grabaseat_daily.py`). -/
theorem claim_C1_cap_inclusive :
    (∀ (cabin : String) (price : Int),
      (price = NzTrans.CABIN_MAX_NZD cabin →
        NzTrans.within_cap cabin price = true) ∧
      (price > NzTrans.CABIN_MAX_NZD cabin →
        NzTrans.within_cap cabin price = false)) ∧
    (∀ (cabin : String) (price cap : ℚ),
      Grabaseat.capsLookup cabin Grabaseat.CABINS = some cap →
      ((price = cap → Grabaseat.within_caps cabin price = true) ∧
       (price > cap → Grabaseat.within_caps cabin price = false))) ∧
    (∀ (off : AnzGrabaseat.AOffer) (price : ℚ),
      AnzGrabaseat.extract_price_nzd off.priceCurrency off.grandTotal =
        some price →
      (off.cabin = "PREMIUM_ECONOMY" ∨ off.cabin = "BUSINESS") →
      ((price = AnzGrabaseat.cap_for off.cabin →
          AnzGrabaseat.keepOffer off = some price) ∧
       (price > AnzGrabaseat.cap_for off.cabin →
          AnzGrabaseat.keepOffer off = none))) ∧
    (∀ price : Int,
      (price = AnzDummy.MAX_PREM_ECON →
        AnzDummy.row_accept (some "W") price = true) ∧
      (price > AnzDummy.MAX_PREM_ECON →
        AnzDummy.row_accept (some "W") price = false) ∧
      (price = AnzDummy.MAX_BUSINESS →
        AnzDummy.row_accept (some "J") price = true) ∧
      (price > AnzDummy.MAX_BUSINESS →
        AnzDummy.row_accept (some "J") price = false)) := by
  refine ⟨?_, ?_, ?_, ?_⟩
  · intro cabin price
    constructor
    · intro h
      subst h
      simp [NzTrans.within_cap]
    · intro h
      simp only [NzTrans.within_cap, decide_eq_false_iff_not, not_le]
      omega
  · intro cabin price cap hcap
    constructor
    · intro h
      subst h
      rw [Grabaseat.within_caps_eq_capsLookup, hcap]
      simp
    · intro h
      rw [Grabaseat.within_caps_eq_capsLookup, hcap]
      simp only [decide_eq_false_iff_not, not_le]
      exact h
  · intro off price hprice hcabin
    rcases hcabin with hc | hc
    · have hcap : AnzGrabaseat.cap_for off.cabin = AnzGrabaseat.PE_CAP := by
        rw [AnzGrabaseat.cap_for, hc]
        simp
      have hne2 : off.cabin ≠ "BUSINESS" := by rw [hc]; decide
      rw [hcap]
      constructor
      · intro h
        subst h
        simp [AnzGrabaseat.keepOffer, hc, hne2, hprice]
      · intro h
        simp [AnzGrabaseat.keepOffer, hc, hne2, hprice, h]
    · have hcap : AnzGrabaseat.cap_for off.cabin = AnzGrabaseat.J_CAP := by
        rw [AnzGrabaseat.cap_for, hc]
        simp
      have hne2 : off.cabin ≠ "PREMIUM_ECONOMY" := by rw [hc]; decide
      rw [hcap]
      constructor
      · intro h
        subst h
        simp [AnzGrabaseat.keepOffer, hc, hne2, hprice]
      · intro h
        simp [AnzGrabaseat.keepOffer, hc, hne2, hprice, h]
  · intro price
    have hW : AnzDummy.row_accept (some "W") price =
        decide (price ≤ AnzDummy.MAX_PREM_ECON) := rfl
    have hJ : AnzDummy.row_accept (some "J") price =
        decide (price ≤ AnzDummy.MAX_BUSINESS) := rfl
    refine ⟨?_, ?_, ?_, ?_⟩ <;> intro h
    · rw [hW, h]; simp
    · rw [hW]; simp only [decide_eq_false_iff_not, not_le]; exact h
    · rw [hJ, h]; simp
    · rw [hJ]; simp only [decide_eq_false_iff_not, not_le]; exact h

/-- Witness for C1 at the configured caps: 1300 (premium economy)
accepted at the cap and rejected one dollar above, likewise 1500
(business), in all four filtering paths. -/
theorem claim_C1_cap_inclusive_witness :
    NzTrans.within_cap "W" 1300 = true ∧
    NzTrans.within_cap "W" 1301 = false ∧
    Grabaseat.within_caps "Premium Economy" 1300 = true ∧
    Grabaseat.within_caps "Premium Economy" 1301 = false ∧
    AnzGrabaseat.keepOffer ⟨"BUSINESS", some "NZD", some 1500, "NZ"⟩ =
      some 1500 ∧
    AnzGrabaseat.keepOffer ⟨"BUSINESS", some "NZD", some 1501, "NZ"⟩ = none ∧
    AnzDummy.row_accept (some "J") 1500 = true ∧
    AnzDummy.row_accept (some "J") 1501 = false :=
  ⟨(claim_C1_cap_inclusive.1 "W" 1300).1 (by decide),
   (claim_C1_cap_inclusive.1 "W" 1301).2 (by decide),
   (claim_C1_cap_inclusive.2.1 "Premium Economy" 1300 1300 (by decide)).1 rfl,
   (claim_C1_cap_inclusive.2.1 "Premium Economy" 1301 1300 (by decide)).2
     (by decide),
   (claim_C1_cap_inclusive.2.2.1 ⟨"BUSINESS", some "NZD", some 1500, "NZ"⟩
     1500 (by decide) (Or.inr rfl)).1 (by decide),
   (claim_C1_cap_inclusive.2.2.1 ⟨"BUSINESS", some "NZD", some 1501, "NZ"⟩
     1501 (by decide) (Or.inr rfl)).2 (by decide),
   (claim_C1_cap_inclusive.2.2.2 1500).2.2.1 (by decide),
   (claim_C1_cap_inclusive.2.2.2 1501).2.2.2 (by decide)⟩

/-- C9 counterexample: with minNights = 29 > maxNights = 28 the
grabaseat night-offset axis is `[29, 28, 28]` — three queries are
emitted, not zero. -/
theorem claim_C9_counterexample :
    Grabaseat.nightsAxis 29 28 = [29, 28, 28] ∧
    Grabaseat.nightsAxis 29 28 ≠ [] := by
  decide

/-- C9 (amended): when minNights > maxNights, the `anz_grabaseat_daily`
enumerator's `range(MIN_RET_DAYS, MAX_RET_DAYS + 1)` axis is empty (and
this is not an error), while the `grabaseat_daily` enumerator always
samples exactly three night counts (min, midpoint, max) regardless. -/
theorem claim_C9_night_axis (minR maxR : Nat) (h : minR > maxR) :
    AnzGrabaseat.retGaps minR maxR = [] ∧
    (Grabaseat.nightsAxis minR maxR).length = 3 := by
  constructor
  · rw [AnzGrabaseat.retGaps]
    have h0 : maxR + 1 - minR = 0 := by omega
    rw [h0]
    rfl
  · rfl

/-- C9 witness: minNights 13 > maxNights 12 gives an empty anz axis and
a three-element grabaseat axis. -/
theorem claim_C9_night_axis_witness :
    AnzGrabaseat.retGaps 13 12 = [] ∧
    (Grabaseat.nightsAxis 13 12).length = 3 :=
  claim_C9_night_axis 13 12 (by decide)

/-- C7: `safe_get` makes at most `RETRIES = 3` attempts; it sleeps between
consecutive attempts (at most one more attempt than sleeps), the `i`-th
sleep being the linear backoff `(i+1) * BACKOFF_SECONDS`; an HTTP 404
(NotFound) is not retried — the attempt on which it occurs is the last;
and when every attempt fails retryably the loop exhausts all 3 attempts
and returns no payload. -/
theorem claim_C7_retry_policy (resp : Nat → NzAuPremium.Resp) :
    (NzAuPremium.safe_get resp).attempts ≤ NzAuPremium.RETRIES ∧
    (NzAuPremium.safe_get resp).attempts ≤
      (NzAuPremium.safe_get resp).sleeps.length + 1 ∧
    (∀ i s, (NzAuPremium.safe_get resp).sleeps.get? i = some s →
      s = (i + 1) * NzAuPremium.BACKOFF_SECONDS) ∧
    ((∀ a, 1 ≤ a → a ≤ NzAuPremium.RETRIES →
        NzAuPremium.isRetryableFailure (resp a) = true) →
      (NzAuPremium.safe_get resp).result = none ∧
        (NzAuPremium.safe_get resp).attempts = NzAuPremium.RETRIES) ∧
    (∀ a, 1 ≤ a → a ≤ NzAuPremium.RETRIES → resp a = .httpErr 404 →
      (∀ b, 1 ≤ b → b < a →
        NzAuPremium.isRetryableFailure (resp b) = true) →
      (NzAuPremium.safe_get resp).attempts = a ∧
        (NzAuPremium.safe_get resp).result = none) := by
  refine ⟨?_, ?_, ?_, ?_, ?_⟩
  · exact NzAuPremium.safe_get_go_attempts_le resp NzAuPremium.RETRIES 1
  · exact NzAuPremium.safe_get_go_sleeps_len resp NzAuPremium.RETRIES 1
  · intro i s h
    have := NzAuPremium.safe_get_go_sleeps resp NzAuPremium.RETRIES 1 i s h
    rw [this]
    ring
  · intro hall
    exact NzAuPremium.safe_get_go_exhaust resp NzAuPremium.RETRIES 1
      (fun b hb1 hb2 => hall b hb1 (by
        simp only [NzAuPremium.RETRIES] at *
        omega))
  · intro a h1 h2 h404 hbefore
    have := NzAuPremium.safe_get_go_notfound resp NzAuPremium.RETRIES 1 a h1
      (by simp only [NzAuPremium.RETRIES] at *; omega) h404
      (fun c hc1 hc2 => hbefore c hc1 hc2)
    exact ⟨by rw [NzAuPremium.safe_get, this.1]; omega,
      by rw [NzAuPremium.safe_get]; exact this.2⟩

/-- C7 witness: a provider failing every attempt exhausts 3 attempts,
sleeps 3 and 6 seconds between them (and 9 after the last), and returns
no payload; a provider returning 404 on the first attempt stops after
one attempt. -/
theorem claim_C7_retry_policy_witness :
    (NzAuPremium.safe_get (fun _ => .exc)).result = none ∧
    (NzAuPremium.safe_get (fun _ => .exc)).attempts = NzAuPremium.RETRIES ∧
    (NzAuPremium.safe_get
      (fun n => if n = 1 then .httpErr 404 else .exc)).attempts = 1 :=
  ⟨((claim_C7_retry_policy (fun _ => .exc)).2.2.2.1 (fun a _ _ => rfl)).1,
   ((claim_C7_retry_policy (fun _ => .exc)).2.2.2.1 (fun a _ _ => rfl)).2,
   ((claim_C7_retry_policy (fun n => if n = 1 then .httpErr 404 else .exc)).2.2.2.2
      1 le_rfl (by decide) rfl
      (fun b hb1 hb2 => absurd (lt_of_le_of_lt hb1 hb2) (lt_irrefl 1))).1⟩

/-- C5 counterexample: with the Tequila key missing, every
`tequila_search_roundtrip` call raises; `scan_routes` over the default
two routes still attempts all 4 (route, cabin) provider queries — the
run does not stop after the first failed query. -/
theorem claim_C5_counterexample :
    (NzTrans.scan_routes (fun _ _ _ => .raised)
      [("AKL", "SYD"), ("AKL", "MEL")]).2 = 4 ∧
    ¬((NzTrans.scan_routes (fun _ _ _ => .raised)
      [("AKL", "SYD"), ("AKL", "MEL")]).2 ≤ 1) := by
  decide

/-- C5 (amended): an authentication failure is not fatal and aborts
nothing.  In `nz_trans_tasman_price_watch.py` the per-query `except`
swallows the missing-credentials exception: every (route, cabin) query is
still attempted (2 per route) and the run completes normally with an
empty result list.  In `anz_grabaseat_daily.py` a failed token
acquisition does return before any search query, but the process exit
status is 0 — no fatal failure is signalled. -/
theorem claim_C5_auth_not_fatal :
    (∀ routes : List (String × String),
      NzTrans.scan_routes (fun _ _ _ => .raised) routes =
        ([], 2 * routes.length)) ∧
    (∀ q : Nat, AnzGrabaseat.main_attempts none q = 0) ∧
    AnzGrabaseat.main_exit none = 0 := by
  refine ⟨?_, fun q => rfl, rfl⟩
  suffices h : ∀ (routes : List (String × String)) (st : List NzTrans.Itin × Nat),
      routes.foldl
        (fun st od =>
          ["W", "C"].foldl
            (fun st cabin =>
              let items :=
                match (fun (_ _ _ : String) => NzTrans.SearchOutcome.raised)
                    od.1 od.2 cabin with
                | .ok its => its
                | .raised => []
              (st.1 ++
                items.filterMap
                  (fun it => NzTrans.extract_itinerary it cabin od.1 od.2),
                st.2 + 1))
            st)
        st = (st.1, st.2 + 2 * routes.length) by
    intro routes
    rw [NzTrans.scan_routes, h routes ([], 0)]
    simp
  intro routes
  induction routes with
  | nil => intro st; simp
  | cons od t ih =>
      intro st
      rw [List.foldl_cons, ih]
      simp [List.foldl_cons, List.foldl_nil]
      omega

/-- Any itinerary produced by `extract_itinerary` carries the requested
cabin and a price within the cap (the `within_cap` guard precedes the
record construction). -/
theorem NzTrans.extract_itinerary_spec (item : NzTrans.Item)
    (cabin origin dest : String) (r : NzTrans.Itin)
    (h : NzTrans.extract_itinerary item cabin origin dest = some r) :
    r.cabin = cabin ∧ r.price_nzd = NzTrans.price_nzd item ∧
      NzTrans.within_cap cabin r.price_nzd = true := by
  rw [NzTrans.extract_itinerary] at h
  split at h
  · exact absurd h (by simp)
  · dsimp only at h
    split at h
    · split at h
      · rename_i hcap
        obtain rfl : _ = r := Option.some.injEq .. ▸ h
        exact ⟨rfl, rfl, hcap⟩
      · exact absurd h (by simp)
    · exact absurd h (by simp)

/-- Every record in the `scan_routes` accumulator was produced by
`extract_itinerary` for the cabin of its own record. -/
theorem NzTrans.scan_routes_within_cap
    (provider : String → String → String → NzTrans.SearchOutcome)
    (routes : List (String × String)) :
    ∀ r ∈ (NzTrans.scan_routes provider routes).1,
      NzTrans.within_cap r.cabin r.price_nzd = true := by
  suffices h : ∀ (routes : List (String × String))
      (st : List NzTrans.Itin × Nat),
      (∀ r ∈ st.1, NzTrans.within_cap r.cabin r.price_nzd = true) →
      ∀ r ∈ (routes.foldl
        (fun st od =>
          ["W", "C"].foldl
            (fun st cabin =>
              let items :=
                match provider od.1 od.2 cabin with
                | .ok its => its
                | .raised => []
              (st.1 ++
                items.filterMap
                  (fun it => NzTrans.extract_itinerary it cabin od.1 od.2),
                st.2 + 1))
            st)
        st).1, NzTrans.within_cap r.cabin r.price_nzd = true by
    exact h routes ([], 0) (by simp)
  intro routes
  induction routes with
  | nil => intro st hst; simpa using hst
  | cons od t ih =>
      intro st hst
      rw [List.foldl_cons]
      refine ih _ ?_
      simp only [List.foldl_cons, List.foldl_nil]
      intro r hr
      simp only [List.mem_append, List.mem_filterMap] at hr
      rcases hr with (hr | ⟨it, _, hext⟩) | ⟨it, _, hext⟩
      · exact hst r hr
      all_goals
        obtain ⟨hcab, -, hcap⟩ := NzTrans.extract_itinerary_spec _ _ _ _ _ hext
        rw [hcab]
        exact hcap

/-- `within_cap` forces the green or amber badge — never the grey one. -/
theorem NzTrans.badge_color_not_grey (cabin : String) (price : Int)
    (h : NzTrans.within_cap cabin price = true) :
    NzTrans.badge_color cabin price ≠ "#9ca3af" := by
  rw [NzTrans.within_cap, decide_eq_true_eq] at h
  simp only [NzTrans.badge_color, if_pos h]
  split <;> decide

/-- Every offer accumulated by `run_scan` passed `within_caps`. -/
theorem Grabaseat.run_scan_within_caps
    (queries : List (String × List Grabaseat.Offer)) :
    ∀ off ∈ Grabaseat.run_scan queries,
      Grabaseat.within_caps off.cabin off.price_nzd = true := by
  suffices h : ∀ (queries : List (String × List Grabaseat.Offer))
      (acc : List Grabaseat.Offer),
      (∀ off ∈ acc, Grabaseat.within_caps off.cabin off.price_nzd = true) →
      ∀ off ∈ queries.foldl
          (fun acc q => acc ++ q.2.filter (Grabaseat.acceptOffer q.1)) acc,
        Grabaseat.within_caps off.cabin off.price_nzd = true by
    exact h queries [] (by simp)
  intro queries
  induction queries with
  | nil => intro acc hacc; simpa using hacc
  | cons q t ih =>
      intro acc hacc
      rw [List.foldl_cons]
      refine ih _ ?_
      intro off hoff
      rcases List.mem_append.mp hoff with hoff | hoff
      · exact hacc off hoff
      · have := List.of_mem_filter hoff
        simp only [Grabaseat.acceptOffer, Bool.and_eq_true] at this
        exact this.2

/-- C10 (invariant): every record appended to the accumulated result list
satisfies its cabin's cap check, and therefore the grey
(`#9ca3af`) branch of `badge_color` cannot fire for any accumulated
record; the grabaseat accumulator likewise only holds offers passing
`within_caps` (its `colour_for` has no grey branch at all). -/
theorem claim_C10_grey_unreachable
    (provider : String → String → String → NzTrans.SearchOutcome)
    (routes : List (String × String))
    (queries : List (String × List Grabaseat.Offer)) :
    (∀ r ∈ (NzTrans.scan_routes provider routes).1,
      NzTrans.within_cap r.cabin r.price_nzd = true ∧
      NzTrans.badge_color r.cabin r.price_nzd ≠ "#9ca3af") ∧
    (∀ off ∈ Grabaseat.run_scan queries,
      Grabaseat.within_caps off.cabin off.price_nzd = true) := by
  refine ⟨fun r hr => ?_, Grabaseat.run_scan_within_caps queries⟩
  have hcap := NzTrans.scan_routes_within_cap provider routes r hr
  exact ⟨hcap, NzTrans.badge_color_not_grey _ _ hcap⟩

/-- C10 witness: a provider returning one in-cap premium-economy item;
the accumulated record renders green/amber, not grey. -/
theorem claim_C10_grey_unreachable_witness :
    NzTrans.within_cap "W" 899 = true ∧
    NzTrans.badge_color "W" 899 ≠ "#9ca3af" :=
  (claim_C10_grey_unreachable
    (fun _ _ _ => NzTrans.SearchOutcome.ok
      [⟨[⟨"AKL", "SYD", ⟨2026, 1, 5⟩⟩, ⟨"SYD", "AKL", ⟨2026, 2, 2⟩⟩],
        none, some 899, none⟩])
    [("AKL", "SYD")] []).1
    ⟨"AKL", "SYD", ⟨2026, 1, 5⟩, ⟨2026, 2, 2⟩, "W", 899, "#", "NZ"⟩
    (by decide)

/-- A raw grabaseat item with every mandatory field present but priced
in AUD rather than the reporting currency NZD. -/
def Grabaseat.audSample : Grabaseat.RawItem :=
  ⟨some "NZ", some "NZ", some "Business", none, some 100, some "AUD",
    some ⟨2026, 1, 5⟩, none, some ⟨2026, 2, 2⟩, none, some "AKL", none,
    some "SYD", none, none, none⟩

/-- C3 (code bug): `parse_results` of `grabaseat_daily.py` does NOT drop
an item whose currency differs from NZD — the conditional
`float(total) if (currency == "NZD" or currency is None) else float(total)`
has identical branches, so the AUD amount 100 is carried through
unconverted into the emitted offer.  The `anz_grabaseat_daily.py`
normalizer (`extract_price_nzd`) does drop mismatched and absent
currencies, as the claim states. -/
theorem claim_C3_currency_mismatch_kept :
    Grabaseat.audSample.priceCurrency = some "AUD" ∧
    Grabaseat.parse_results [Grabaseat.audSample] =
      [⟨"AKL", "SYD", ⟨2026, 1, 5⟩, ⟨2026, 2, 2⟩, "Business", 100, "NZ",
        "NZ", "https://grabaseat.co.nz"⟩] ∧
    (Grabaseat.parse_results [Grabaseat.audSample]).length = 1 ∧
    AnzGrabaseat.extract_price_nzd (some "AUD") (some 100) = none ∧
    (∀ total : Option ℚ, AnzGrabaseat.extract_price_nzd none total = none) :=
  ⟨rfl, by decide, by decide, by decide, fun total => rfl⟩

/-- A Tequila item whose `"price"` key is absent (`price = None`), with a
well-formed two-segment route. -/
def NzTrans.noPriceSample : NzTrans.Item :=
  ⟨[⟨"AKL", "SYD", ⟨2026, 1, 5⟩⟩, ⟨"SYD", "AKL", ⟨2026, 2, 2⟩⟩],
    none, none, none⟩

/-- C4 counterexample: the nz_trans normalizer emits an Offer for a raw
item missing the mandatory price field — `item.get("price", 0)` defaults
the price to 0, which passes the cap check, so a record with the
defaulted price 0 is constructed rather than the item being dropped. -/
theorem claim_C4_counterexample :
    NzTrans.noPriceSample.price = none ∧
    NzTrans.extract_itinerary NzTrans.noPriceSample "W" "AKL" "SYD" =
      some ⟨"AKL", "SYD", ⟨2026, 1, 5⟩, ⟨2026, 2, 2⟩, "W", 0, "#", "NZ"⟩ := by
  decide

/-- C4 (amended): the grabaseat normalizer (`parse_results`) emits no
Offer for a raw item missing (or falsy in) any mandatory field — price,
currency, cabin, either date, or either route code; the nz_trans
normalizer, however, defaults a missing price to 0 and emits the offer
with that defaulted price (its cap check then accepts it). -/
theorem claim_C4_missing_fields :
    (∀ it : Grabaseat.RawItem,
      (Grabaseat.truthyQ it.priceAmount = none ∨
       Grabaseat.truthyS it.priceCurrency = none ∨
       Grabaseat.firstD it.outboundDate it.departDate = none ∨
       Grabaseat.firstD it.inboundDate it.returnDate = none ∨
       Grabaseat.firstS it.origin it.fromCode = none ∨
       Grabaseat.firstS it.destination it.toCode = none ∨
       (Grabaseat.firstS it.cabin it.cabinClass).getD "" = "") →
      Grabaseat.parse_item it = none) ∧
    (∀ (item : NzTrans.Item), item.price = none →
      ∀ (cabin origin dest : String) (r : NzTrans.Itin),
        NzTrans.extract_itinerary item cabin origin dest = some r →
        r.price_nzd = 0) := by
  constructor
  · intro it h
    simp only [Grabaseat.parse_item]
    cases h1 : Grabaseat.truthyQ it.priceAmount with
    | none => rfl
    | some total =>
    cases h2 : Grabaseat.truthyS it.priceCurrency with
    | none => rfl
    | some currency =>
    cases h3 : Grabaseat.firstD it.outboundDate it.departDate with
    | none => rfl
    | some dep =>
    cases h4 : Grabaseat.firstD it.inboundDate it.returnDate with
    | none => rfl
    | some ret =>
    cases h5 : Grabaseat.firstS it.origin it.fromCode with
    | none => rfl
    | some origin =>
    cases h6 : Grabaseat.firstS it.destination it.toCode with
    | none => rfl
    | some dest =>
    rcases h with h | h | h | h | h | h | hcab
    · rw [h1] at h; exact absurd h (by simp)
    · rw [h2] at h; exact absurd h (by simp)
    · rw [h3] at h; exact absurd h (by simp)
    · rw [h4] at h; exact absurd h (by simp)
    · rw [h5] at h; exact absurd h (by simp)
    · rw [h6] at h; exact absurd h (by simp)
    · simp [hcab]
  · intro item hprice cabin origin dest r hext
    have := (NzTrans.extract_itinerary_spec item cabin origin dest r hext).2.1
    rw [this, NzTrans.price_nzd, hprice]
    decide

/-- C4 witness: an all-absent raw item produces no grabaseat Offer, and
the nz_trans record built from the price-less item carries price 0. -/
theorem claim_C4_missing_fields_witness :
    Grabaseat.parse_item
      ⟨none, none, none, none, none, none, none, none, none, none, none,
        none, none, none, none, none⟩ = none ∧
    (⟨"AKL", "SYD", ⟨2026, 1, 5⟩, ⟨2026, 2, 2⟩, "W", 0, "#", "NZ"⟩ :
      NzTrans.Itin).price_nzd = 0 :=
  ⟨claim_C4_missing_fields.1 _ (Or.inl rfl),
   claim_C4_missing_fields.2 NzTrans.noPriceSample rfl "W" "AKL" "SYD" _
     (by decide)⟩

/-- The items of one provider outcome (an exception yields zero items). -/
def NzTrans.itemsOf : NzTrans.SearchOutcome → List NzTrans.Item
  | .ok its => its
  | .raised => []

/-- The (origin, destination, cabin, departureDate, returnDate) dedup key
of §4.5 for nz_trans records. -/
def NzTrans.dedupKey (r : NzTrans.Itin) :
    String × String × String × Date × Date :=
  (r.origin, r.dest, r.cabin, r.depart_date, r.return_date)

/-- Number of accumulated nz_trans records sharing a dedup key. -/
def NzTrans.countKey (k : String × String × String × Date × Date)
    (l : List NzTrans.Itin) : Nat :=
  (l.filter (fun r => NzTrans.dedupKey r = k)).length

/-- `scan_routes` in route-level form: each route contributes its W-cabin
then its C-cabin extractions, two queries per route. -/
theorem NzTrans.scan_routes_eq
    (provider : String → String → String → NzTrans.SearchOutcome)
    (routes : List (String × String)) :
    NzTrans.scan_routes provider routes =
      routes.foldl
        (fun st od =>
          (st.1 ++
            (NzTrans.itemsOf (provider od.1 od.2 "W")).filterMap
              (fun it => NzTrans.extract_itinerary it "W" od.1 od.2) ++
            (NzTrans.itemsOf (provider od.1 od.2 "C")).filterMap
              (fun it => NzTrans.extract_itinerary it "C" od.1 od.2),
            st.2 + 2))
        ([], 0) := by
  rw [NzTrans.scan_routes]
  apply List.foldl_ext
  intro st od _
  simp only [List.foldl_cons, List.foldl_nil]
  cases h : provider od.1 od.2 "W" <;> cases h2 : provider od.1 od.2 "C" <;>
    simp [NzTrans.itemsOf]

/-- C2 counterexample offers: identical dedup key, different prices. -/
def Grabaseat.dupA : Grabaseat.Offer :=
  ⟨"AKL", "SYD", ⟨2026, 1, 5⟩, ⟨2026, 2, 2⟩, "Premium Economy", 1250,
    "NZ", "NZ", "x"⟩

def Grabaseat.dupB : Grabaseat.Offer :=
  ⟨"AKL", "SYD", ⟨2026, 1, 5⟩, ⟨2026, 2, 2⟩, "Premium Economy", 1200,
    "NZ", "NZ", "y"⟩

/-- C2 counterexample: two eligible offers with the same
(origin, destination, cabin, departureDate, returnDate) key and different
prices (1250 and 1200) are BOTH kept by the accumulation stage — the
final list holds two entries for the key, not one entry at the minimum
price. -/
theorem claim_C2_counterexample :
    Grabaseat.dedupKey Grabaseat.dupA = Grabaseat.dedupKey Grabaseat.dupB ∧
    Grabaseat.dupA.price_nzd ≠ Grabaseat.dupB.price_nzd ∧
    Grabaseat.countKey (Grabaseat.dedupKey Grabaseat.dupA)
      (Grabaseat.run_scan
        [("Premium Economy", [Grabaseat.dupA, Grabaseat.dupB])]) = 2 ∧
    ¬(Grabaseat.countKey (Grabaseat.dedupKey Grabaseat.dupA)
      (Grabaseat.run_scan
        [("Premium Economy", [Grabaseat.dupA, Grabaseat.dupB])]) = 1) := by
  decide

/-- C2 (amended): neither scanner deduplicates.  The accumulation stage
retains every eligible offer: the number of accumulated entries sharing a
dedup key equals the total number of accepted occurrences of that key
across all queries (so a key seen with two different prices contributes
two entries, and the cheapest-instance collapse described by the spec
never happens). -/
theorem claim_C2_no_dedup :
    (∀ (queries : List (String × List Grabaseat.Offer))
        (k : String × String × String × Date × Date),
      Grabaseat.countKey k (Grabaseat.run_scan queries) =
        (queries.map (fun q =>
          Grabaseat.countKey k
            (q.2.filter (Grabaseat.acceptOffer q.1)))).sum) ∧
    (∀ (provider : String → String → String → NzTrans.SearchOutcome)
        (routes : List (String × String))
        (k : String × String × String × Date × Date),
      NzTrans.countKey k (NzTrans.scan_routes provider routes).1 =
        (routes.map (fun od =>
          NzTrans.countKey k
            ((NzTrans.itemsOf (provider od.1 od.2 "W")).filterMap
              (fun it => NzTrans.extract_itinerary it "W" od.1 od.2)) +
          NzTrans.countKey k
            ((NzTrans.itemsOf (provider od.1 od.2 "C")).filterMap
              (fun it => NzTrans.extract_itinerary it "C" od.1 od.2)))).sum) := by
  constructor
  · intro queries k
    suffices h : ∀ (queries : List (String × List Grabaseat.Offer))
        (acc : List Grabaseat.Offer),
        Grabaseat.countKey k
          (queries.foldl
            (fun acc q => acc ++ q.2.filter (Grabaseat.acceptOffer q.1)) acc) =
          Grabaseat.countKey k acc +
            (queries.map (fun q =>
              Grabaseat.countKey k
                (q.2.filter (Grabaseat.acceptOffer q.1)))).sum by
      simpa [Grabaseat.run_scan, Grabaseat.countKey] using h queries []
    intro queries
    induction queries with
    | nil => intro acc; simp
    | cons q t ih =>
        intro acc
        rw [List.foldl_cons, ih]
        simp [Grabaseat.countKey, List.filter_append]
        omega
  · intro provider routes k
    rw [NzTrans.scan_routes_eq]
    suffices h : ∀ (routes : List (String × String))
        (st : List NzTrans.Itin × Nat),
        NzTrans.countKey k
          (routes.foldl
            (fun st od =>
              (st.1 ++
                (NzTrans.itemsOf (provider od.1 od.2 "W")).filterMap
                  (fun it => NzTrans.extract_itinerary it "W" od.1 od.2) ++
                (NzTrans.itemsOf (provider od.1 od.2 "C")).filterMap
                  (fun it => NzTrans.extract_itinerary it "C" od.1 od.2),
                st.2 + 2))
            st).1 =
          NzTrans.countKey k st.1 +
            (routes.map (fun od =>
              NzTrans.countKey k
                ((NzTrans.itemsOf (provider od.1 od.2 "W")).filterMap
                  (fun it => NzTrans.extract_itinerary it "W" od.1 od.2)) +
              NzTrans.countKey k
                ((NzTrans.itemsOf (provider od.1 od.2 "C")).filterMap
                  (fun it => NzTrans.extract_itinerary it "C" od.1 od.2)))).sum by
      simpa [NzTrans.countKey] using h routes ([], 0)
    intro routes
    induction routes with
    | nil => intro st; simp
    | cons od t ih =>
        intro st
        rw [List.foldl_cons, ih]
        simp [NzTrans.countKey, List.filter_append]
        omega

/-- Each bucket of `bucketsBy` is exactly the filter of the input at its
own key. -/
theorem bucketsBy_mem_eq_filter {κ α : Type} [DecidableEq κ]
    (key : α → κ) (l : List α) :
    ∀ q ∈ bucketsBy key l, q.2 = l.filter (fun x => key x = q.1) := by
  intro q hq
  have hmem : (q.1, q.2) ∈ bucketsBy key l := by
    rwa [Prod.mk.eta]
  obtain ⟨hk, hget⟩ :=
    (mem_iff_bGet (bucketsBy_keys_nodup key l)).mp hmem
  rw [← hget, bucketsBy_get]

/-- `itinLe` is monotone in price: the within-bucket sort order implies
non-decreasing prices. -/
theorem itinLe_price (a b : NzTrans.Itin) (h : NzTrans.itinLe a b = true) :
    a.price_nzd ≤ b.price_nzd := by
  simp only [NzTrans.itinLe, Bool.or_eq_true, Bool.and_eq_true,
    decide_eq_true_eq] at h
  omega

/-- C6 counterexample rows: same route and month, the earlier-departing
row is the more expensive one. -/
def Grabaseat.cexRow1 : Grabaseat.Offer :=
  ⟨"AKL", "SYD", ⟨2026, 1, 5⟩, ⟨2026, 2, 2⟩, "Premium Economy", 1300,
    "NZ", "NZ", "x"⟩

def Grabaseat.cexRow2 : Grabaseat.Offer :=
  ⟨"AKL", "SYD", ⟨2026, 1, 10⟩, ⟨2026, 2, 7⟩, "Premium Economy", 1200,
    "NZ", "NZ", "y"⟩

/-- Rows of a bucket are non-decreasing in price. -/
def Grabaseat.pricesMonotone : List Grabaseat.Offer → Bool
  | [] => true
  | [_] => true
  | a :: b :: t =>
      a.price_nzd ≤ b.price_nzd && Grabaseat.pricesMonotone (b :: t)

unseal List.merge List.mergeSort in
/-- C6 counterexample: `build_html` sorts a month's rows by
(origin, dest, departureDate, price), not by (price, departureDate,
returnDate): with two same-route January rows at (dep 5th, price 1300)
and (dep 10th, price 1200), the emitted bucket is ordered by departure
date and its prices decrease — rows within a bucket are NOT sorted
ascending by price. -/
theorem claim_C6_counterexample :
    Grabaseat.build_html_rows [Grabaseat.cexRow1, Grabaseat.cexRow2] =
      [((2026, 1), [Grabaseat.cexRow1, Grabaseat.cexRow2])] ∧
    Grabaseat.cexRow1.price_nzd > Grabaseat.cexRow2.price_nzd ∧
    Grabaseat.pricesMonotone [Grabaseat.cexRow1, Grabaseat.cexRow2] =
      false :=
  ⟨rfl, by decide, by decide⟩

/-- C6 (amended): the nz_trans month grouper `month_groups` has all the
claimed properties — every row sits in the bucket of its departure
(year, month); bucket keys are distinct and emitted in chronological
order; rows within a bucket are sorted ascending by
(price, departureDate, returnDate), in particular non-decreasing in
price; no bucket is empty and every bucket key is the departure month of
some accumulated offer.  The grabaseat renderer `build_html`, however,
sorts within-month rows by (origin, dest, departureDate, price) instead
(see the counterexample). -/
theorem claim_C6_month_grouper (hits : List NzTrans.Itin) :
    (∀ p ∈ NzTrans.month_groups hits, ∀ r ∈ p.2,
      NzTrans.month_key r.depart_date = p.1) ∧
    ((NzTrans.month_groups hits).map Prod.fst).Nodup ∧
    (NzTrans.month_groups hits).Pairwise (fun a b => ymLe a.1 b.1 = true) ∧
    (∀ p ∈ NzTrans.month_groups hits,
      p.2.Pairwise (fun a b => NzTrans.itinLe a b = true)) ∧
    (∀ p ∈ NzTrans.month_groups hits,
      p.2.Pairwise (fun a b => a.price_nzd ≤ b.price_nzd)) ∧
    (∀ p ∈ NzTrans.month_groups hits, p.2 ≠ []) ∧
    (∀ p ∈ NzTrans.month_groups hits, ∃ r ∈ hits,
      NzTrans.month_key r.depart_date = p.1) := by
  have hmem : ∀ p, p ∈ NzTrans.month_groups hits ↔
      ∃ q ∈ bucketsBy (fun h => NzTrans.month_key h.depart_date) hits,
        p = (q.1, q.2.mergeSort NzTrans.itinLe) := by
    intro p
    rw [NzTrans.month_groups]
    simp only [List.mem_mergeSort, List.mem_map]
    constructor
    · rintro ⟨q, hq, rfl⟩; exact ⟨q, hq, rfl⟩
    · rintro ⟨q, hq, rfl⟩; exact ⟨q, hq, rfl⟩
  have hsorted3 : ∀ p ∈ NzTrans.month_groups hits,
      p.2.Pairwise (fun a b => NzTrans.itinLe a b = true) := by
    intro p hp
    obtain ⟨q, hq, rfl⟩ := (hmem p).mp hp
    exact List.sorted_mergeSort
      (fun a b c => NzTrans.itinLe_trans a b c)
      (fun a b => NzTrans.itinLe_total a b) q.2
  refine ⟨?_, ?_, ?_, hsorted3, ?_, ?_, ?_⟩
  · intro p hp r hr
    obtain ⟨q, hq, rfl⟩ := (hmem p).mp hp
    simp only [List.mem_mergeSort] at hr
    exact bucketsBy_key_of_mem _ hits q hq r hr
  · rw [NzTrans.month_groups]
    have hperm : List.Perm
        ((((bucketsBy (fun h => NzTrans.month_key h.depart_date) hits).map
          (fun p => (p.1, p.2.mergeSort NzTrans.itinLe))).mergeSort
            (fun a b => ymLe a.1 b.1)).map Prod.fst)
        (((bucketsBy (fun h => NzTrans.month_key h.depart_date) hits).map
          (fun p => (p.1, p.2.mergeSort NzTrans.itinLe))).map Prod.fst) :=
      (List.mergeSort_perm _ _).map Prod.fst
    rw [List.Perm.nodup_iff hperm, List.map_map]
    have hfst : (Prod.fst ∘ fun p : (Nat × Nat) × List NzTrans.Itin =>
        (p.1, p.2.mergeSort NzTrans.itinLe)) = Prod.fst := rfl
    rw [hfst]
    exact bucketsBy_keys_nodup _ hits
  · rw [NzTrans.month_groups]
    exact @List.sorted_mergeSort ((Nat × Nat) × List NzTrans.Itin)
      (fun a b => ymLe a.1 b.1)
      (fun a b c h₁ h₂ => ymLe_trans h₁ h₂)
      (fun a b => by
        rcases ymLe_total a.1 b.1 with h | h <;> simp [h]) _
  · intro p hp
    exact (hsorted3 p hp).imp (fun h => itinLe_price _ _ h)
  · intro p hp
    obtain ⟨q, hq, rfl⟩ := (hmem p).mp hp
    intro hnil
    have hnil2 : q.2.mergeSort NzTrans.itinLe = [] := hnil
    have hp2 := (List.mergeSort_perm q.2 NzTrans.itinLe).symm
    rw [hnil2] at hp2
    exact bucketsBy_ne_nil _ hits q hq hp2.eq_nil
  · intro p hp
    obtain ⟨q, hq, rfl⟩ := (hmem p).mp hp
    have hfil := bucketsBy_mem_eq_filter _ hits q hq
    have hne : q.2 ≠ [] := bucketsBy_ne_nil _ hits q hq
    cases hcase : q.2 with
    | nil => exact absurd hcase hne
    | cons r t =>
        have : r ∈ q.2 := by rw [hcase]; exact List.mem_cons_self r t
        rw [hfil] at this
        exact ⟨r, List.mem_of_mem_filter this,
          by simpa using List.of_mem_filter this⟩

/-- The full sort key used inside month buckets. -/
def NzTrans.sortKey (r : NzTrans.Itin) : Int × Date × Date :=
  (r.price_nzd, r.depart_date, r.return_date)

/-- Membership in `month_groups`, characterised without the intermediate
bucket dict: a pair is emitted iff its key is the departure month of some
accumulated offer and its rows are the stable sort of exactly the offers
of that month. -/
theorem NzTrans.month_groups_mem_iff (hits : List NzTrans.Itin)
    (p : (Nat × Nat) × List NzTrans.Itin) :
    p ∈ NzTrans.month_groups hits ↔
      (∃ r ∈ hits, NzTrans.month_key r.depart_date = p.1) ∧
      p.2 = (hits.filter
        (fun r => NzTrans.month_key r.depart_date = p.1)).mergeSort
          NzTrans.itinLe := by
  rw [NzTrans.month_groups]
  simp only [List.mem_mergeSort, List.mem_map]
  constructor
  · rintro ⟨q, hq, rfl⟩
    have hk : q.1 ∈ (bucketsBy
        (fun h => NzTrans.month_key h.depart_date) hits).map Prod.fst :=
      List.mem_map_of_mem Prod.fst hq
    refine ⟨(mem_keys_bucketsBy _ hits q.1).mp hk, ?_⟩
    rw [bucketsBy_mem_eq_filter _ hits q hq]
  · rintro ⟨hex, h2⟩
    have hk : p.1 ∈ (bucketsBy
        (fun h => NzTrans.month_key h.depart_date) hits).map Prod.fst :=
      (mem_keys_bucketsBy _ hits p.1).mpr hex
    refine ⟨(p.1, bGet p.1
      (bucketsBy (fun h => NzTrans.month_key h.depart_date) hits)), ?_, ?_⟩
    · exact (mem_iff_bGet (bucketsBy_keys_nodup _ hits)).mpr ⟨hk, rfl⟩
    · rw [bucketsBy_get]
      ext1
      · rfl
      · rw [← h2]
  -- (the two goals produced by `ext1` are the components of the pair)

/-- The emitted bucket keys of `month_groups` are distinct. -/
theorem NzTrans.month_groups_keys_nodup (hits : List NzTrans.Itin) :
    ((NzTrans.month_groups hits).map Prod.fst).Nodup := by
  rw [NzTrans.month_groups]
  have hperm : List.Perm
      ((((bucketsBy (fun h => NzTrans.month_key h.depart_date) hits).map
        (fun p => (p.1, p.2.mergeSort NzTrans.itinLe))).mergeSort
          (fun a b => ymLe a.1 b.1)).map Prod.fst)
      (((bucketsBy (fun h => NzTrans.month_key h.depart_date) hits).map
        (fun p => (p.1, p.2.mergeSort NzTrans.itinLe))).map Prod.fst) :=
    (List.mergeSort_perm _ _).map Prod.fst
  rw [List.Perm.nodup_iff hperm, List.map_map]
  have hfst : (Prod.fst ∘ fun p : (Nat × Nat) × List NzTrans.Itin =>
      (p.1, p.2.mergeSort NzTrans.itinLe)) = Prod.fst := rfl
  rw [hfst]
  exact bucketsBy_keys_nodup _ hits

/-- The buckets of `month_groups` are emitted in chronological
(year, month) order. -/
theorem NzTrans.month_groups_chrono (hits : List NzTrans.Itin) :
    (NzTrans.month_groups hits).Pairwise
      (fun a b => ymLe a.1 b.1 = true) := by
  rw [NzTrans.month_groups]
  exact @List.sorted_mergeSort ((Nat × Nat) × List NzTrans.Itin)
    (fun a b => ymLe a.1 b.1)
    (fun a b c h₁ h₂ => ymLe_trans h₁ h₂)
    (fun a b => by
      rcases ymLe_total a.1 b.1 with h | h <;> simp [h]) _

/-- Two sorted itinerary lists that are permutations of each other and
whose sort keys are distinct are equal. -/
theorem NzTrans.sorted_nodup_eq (v w : List NzTrans.Itin)
    (hperm : List.Perm v w)
    (hs1 : v.Pairwise (fun a b => NzTrans.itinLe a b = true))
    (hs2 : w.Pairwise (fun a b => NzTrans.itinLe a b = true))
    (hnd : (v.map NzTrans.sortKey).Nodup) : v = w := by
  have hnd1 : v.Pairwise
      (fun a b => NzTrans.sortKey a ≠ NzTrans.sortKey b) :=
    List.pairwise_map.mp hnd
  have hndw : (w.map NzTrans.sortKey).Nodup :=
    (List.Perm.nodup_iff (hperm.map NzTrans.sortKey)).mp hnd
  have hnd2 : w.Pairwise
      (fun a b => NzTrans.sortKey a ≠ NzTrans.sortKey b) :=
    List.pairwise_map.mp hndw
  haveI : IsAntisymm NzTrans.Itin
      (fun a b => NzTrans.itinLe a b = true ∧
        NzTrans.sortKey a ≠ NzTrans.sortKey b) := by
    constructor
    intro a b h1 h2
    obtain ⟨hp, hd, hr⟩ := NzTrans.itinLe_antisymm_key a b h1.1 h2.1
    exact absurd (by rw [NzTrans.sortKey, NzTrans.sortKey, hp, hd, hr]) h1.2
  exact List.eq_of_perm_of_sorted hperm (hs1.and hnd1) (hs2.and hnd2)

/-- Two chronologically sorted bucket lists that are permutations of each
other with distinct keys are equal. -/
theorem NzTrans.sorted_buckets_nodup_eq
    (v w : List ((Nat × Nat) × List NzTrans.Itin))
    (hperm : List.Perm v w)
    (hs1 : v.Pairwise (fun a b => ymLe a.1 b.1 = true))
    (hs2 : w.Pairwise (fun a b => ymLe a.1 b.1 = true))
    (hnd : (v.map Prod.fst).Nodup) : v = w := by
  have hnd1 : v.Pairwise (fun a b => a.1 ≠ b.1) := List.pairwise_map.mp hnd
  have hndw : (w.map Prod.fst).Nodup :=
    (List.Perm.nodup_iff (hperm.map Prod.fst)).mp hnd
  have hnd2 : w.Pairwise (fun a b => a.1 ≠ b.1) := List.pairwise_map.mp hndw
  haveI : IsAntisymm ((Nat × Nat) × List NzTrans.Itin)
      (fun a b => ymLe a.1 b.1 = true ∧ a.1 ≠ b.1) := by
    constructor
    intro a b h1 h2
    exact absurd (ymLe_antisymm h1.1 h2.1) h1.2
  exact List.eq_of_perm_of_sorted hperm (hs1.and hnd1) (hs2.and hnd2)

/-- C8 counterexample rows: identical (price, departureDate, returnDate)
sort key, different destinations. -/
def NzTrans.tieX : NzTrans.Itin :=
  ⟨"AKL", "SYD", ⟨2026, 1, 5⟩, ⟨2026, 2, 2⟩, "W", 1200, "#", "NZ"⟩

def NzTrans.tieY : NzTrans.Itin :=
  ⟨"AKL", "MEL", ⟨2026, 1, 5⟩, ⟨2026, 2, 2⟩, "W", 1200, "#", "NZ"⟩

unseal List.merge List.mergeSort in
/-- C8 counterexample: the within-bucket sort is stable, so two offers
tying on (price, departureDate, returnDate) keep their accumulation
order — permuting the accumulated list permutes the emitted rows, and
the grouped output differs. -/
theorem claim_C8_counterexample :
    List.Perm [NzTrans.tieX, NzTrans.tieY] [NzTrans.tieY, NzTrans.tieX] ∧
    NzTrans.month_groups [NzTrans.tieX, NzTrans.tieY] ≠
      NzTrans.month_groups [NzTrans.tieY, NzTrans.tieX] :=
  ⟨List.Perm.swap NzTrans.tieY NzTrans.tieX [], by decide⟩

/-- C8 (amended): the grouped, ranked output is independent of the
accumulation (query completion) order provided no two accumulated offers
tie on the full within-bucket sort key (price, departureDate,
returnDate); when two offers tie, the stable sort preserves accumulation
order and the outputs may differ (see the counterexample). -/
theorem claim_C8_order_independence (l l' : List NzTrans.Itin)
    (hperm : List.Perm l l')
    (hnd : (l.map NzTrans.sortKey).Nodup) :
    NzTrans.month_groups l = NzTrans.month_groups l' := by
  have hfil : ∀ k : Nat × Nat,
      (l.filter (fun r => NzTrans.month_key r.depart_date = k)).mergeSort
        NzTrans.itinLe =
      (l'.filter (fun r => NzTrans.month_key r.depart_date = k)).mergeSort
        NzTrans.itinLe := by
    intro k
    apply NzTrans.sorted_nodup_eq
    · exact (List.mergeSort_perm _ _).trans
        ((hperm.filter _).trans (List.mergeSort_perm _ _).symm)
    · exact List.sorted_mergeSort
        (fun a b c h₁ h₂ => NzTrans.itinLe_trans a b c h₁ h₂)
        (fun a b => NzTrans.itinLe_total a b) _
    · exact List.sorted_mergeSort
        (fun a b c h₁ h₂ => NzTrans.itinLe_trans a b c h₁ h₂)
        (fun a b => NzTrans.itinLe_total a b) _
    · have hsub : ((l.filter
          (fun r => NzTrans.month_key r.depart_date = k)).map
            NzTrans.sortKey).Nodup :=
        List.Nodup.sublist ((List.filter_sublist l).map NzTrans.sortKey) hnd
      exact (List.Perm.nodup_iff
        ((List.mergeSort_perm _ _).map NzTrans.sortKey)).mpr hsub
  have hmemiff : ∀ p, p ∈ NzTrans.month_groups l ↔
      p ∈ NzTrans.month_groups l' := by
    intro p
    rw [NzTrans.month_groups_mem_iff, NzTrans.month_groups_mem_iff]
    constructor
    · rintro ⟨⟨r, hr, hk⟩, h2⟩
      exact ⟨⟨r, hperm.mem_iff.mp hr, hk⟩, by rw [h2, hfil]⟩
    · rintro ⟨⟨r, hr, hk⟩, h2⟩
      exact ⟨⟨r, hperm.mem_iff.mpr hr, hk⟩, by rw [h2, ← hfil]⟩
  have hndl : (NzTrans.month_groups l).Nodup :=
    List.Nodup.of_map Prod.fst (NzTrans.month_groups_keys_nodup l)
  have hndl' : (NzTrans.month_groups l').Nodup :=
    List.Nodup.of_map Prod.fst (NzTrans.month_groups_keys_nodup l')
  have hpermG : List.Perm (NzTrans.month_groups l)
      (NzTrans.month_groups l') :=
    (List.perm_ext_iff_of_nodup hndl hndl').mpr hmemiff
  exact NzTrans.sorted_buckets_nodup_eq _ _ hpermG
    (NzTrans.month_groups_chrono l) (NzTrans.month_groups_chrono l')
    (NzTrans.month_groups_keys_nodup l)

/-- C8 witness: two distinct-key offers grouped identically in either
accumulation order. -/
theorem claim_C8_order_independence_witness :
    NzTrans.month_groups [NzTrans.tieX,
      ⟨"AKL", "SYD", ⟨2026, 2, 5⟩, ⟨2026, 3, 2⟩, "C", 1400, "#", "NZ"⟩] =
    NzTrans.month_groups
      [⟨"AKL", "SYD", ⟨2026, 2, 5⟩, ⟨2026, 3, 2⟩, "C", 1400, "#", "NZ"⟩,
        NzTrans.tieX] :=
  claim_C8_order_independence _ _
    (List.Perm.swap ⟨"AKL", "SYD", ⟨2026, 2, 5⟩, ⟨2026, 3, 2⟩, "C", 1400,
      "#", "NZ"⟩ NzTrans.tieX [])
    (by decide)

/-- Sample offers for the C6 witness: one January, one February 2026. -/
def NzTrans.sampleJan : NzTrans.Itin :=
  ⟨"AKL", "SYD", ⟨2026, 1, 10⟩, ⟨2026, 2, 8⟩, "W", 900, "#", "NZ"⟩

def NzTrans.sampleFeb : NzTrans.Itin :=
  ⟨"AKL", "MEL", ⟨2026, 2, 5⟩, ⟨2026, 3, 1⟩, "C", 1400, "#", "NZ"⟩

unseal List.merge List.mergeSort in
/-- C6 witness: grouping a February offer accumulated before a January
offer puts the January row in the (2026, 1) bucket. -/
theorem claim_C6_month_grouper_witness :
    NzTrans.month_key (⟨2026, 1, 10⟩ : Date) = (2026, 1) :=
  (claim_C6_month_grouper [NzTrans.sampleFeb, NzTrans.sampleJan]).1
    ((2026, 1), [NzTrans.sampleJan]) (by decide) NzTrans.sampleJan
    (by decide)
